import Mathlib

/-!
Verification of the page-cache and locking core of the cmu15-445lab repository.

The development shallowly embeds four source files:
* `src/buffer/lru_replacer.cpp`       — namespace `LRUReplacer`
* `src/hash/extendible_hash.cpp`      — namespace `ExtendibleHash`
* `src/buffer/buffer_pool_manager.cpp`— namespace `BufferPoolManager`
* `src/concurrency/lock_manager.cpp`  — namespace `LockManager`

Machine integers are modelled as `Nat`/`Int` (no overflow is relevant at the
sizes the claims exercise).  A C++ `std::vector` read or write through
`operator[]` at an out-of-range index is undefined behaviour; it is embedded
as the `none` branch of `Option`-returning operations, so a faulting execution
has no post-state.
-/

set_option autoImplicit false

namespace Cmudb

/-! ## LRU replacer (`src/buffer/lru_replacer.cpp`)

The replacer state is the `std::list` field `vec_`; for the buffer pool the
element type is `Page *`, i.e. frame identity, embedded as `Nat`.
`push_front` puts the most recently unpinned element at the head, so the head
is the MRU end and the last element is the LRU end.
-/

namespace LRUReplacer

/-- `LRUReplacer::Insert`: erase the first occurrence of `x` (the source loop
breaks after the first hit), then `push_front`. -/
def Insert (l : List Nat) (x : Nat) : List Nat :=
  x :: l.erase x

/-- `LRUReplacer::Victim`: on the empty list return `false` (no value, state
unchanged).  Otherwise the source loop walks the whole list assigning `value`
at every element — so `value` ends up holding the final element — and then
`pop_back` removes the final element.  The loop is embedded as a `foldl`. -/
def Victim (l : List Nat) : Option Nat × List Nat :=
  if l.isEmpty then (none, l)
  else (l.foldl (fun _ x => some x) none, l.dropLast)

/-- `LRUReplacer::Erase`: remove the first occurrence of `x`, reporting
whether anything was removed. -/
def Erase (l : List Nat) (x : Nat) : Bool × List Nat :=
  (x ∈ l, l.erase x)

/-- `LRUReplacer::Size`. -/
def Size (l : List Nat) : Nat := l.length

end LRUReplacer

/-! ## Extendible hash (`src/hash/extendible_hash.cpp`)

The instantiation verified here is `ExtendibleHash<int, int>` (explicitly
instantiated at the bottom of the source file for tests).  On the reference
implementation `std::hash<int>` is the identity, so `HashKey k` is
`k % dirSize`; keys and values are embedded as `Nat`.

A `std::map<K, V>` bucket is embedded as an association list.  Its keys stay
pairwise distinct because `std::map::insert` — and hence `mapInsert` below —
inserts only when the key is absent; the sortedness of `std::map` affects only
iteration order, which is observable in this code solely through the
redistribution loop of `Split`, where it cannot change the resulting
key-value content of any bucket.
-/

/-- `std::map::find`, as lookup in an association list. -/
def mapFind : List (Nat × Nat) → Nat → Option Nat
  | [], _ => none
  | (k, v) :: t, q => if k = q then some v else mapFind t q

/-- `std::map::insert(make_pair(k, v))`: inserts only when `k` is absent;
an existing binding is left unchanged. -/
def mapInsert (b : List (Nat × Nat)) (k v : Nat) : List (Nat × Nat) :=
  if (mapFind b k).isSome then b else b ++ [(k, v)]

/-- `std::map::erase(k)`: removes the (unique) entry with key `k`. -/
def mapErase : List (Nat × Nat) → Nat → List (Nat × Nat)
  | [], _ => []
  | (k, v) :: t, q => if k = q then t else (k, v) :: mapErase t q

/-- Bounds-checked `std::vector` element assignment: `v[i] = a` is undefined
behaviour when `i ≥ v.size()`, embedded as `none`. -/
def lset? {α : Type} (l : List α) (i : Nat) (a : α) : Option (List α) :=
  if i < l.length then some (l.set i a) else none

namespace ExtendibleHash

/-- The fields of `ExtendibleHash<int, int>` (from `extendible_hash.h`). -/
structure EHState where
  dir : List Nat
  dirSize : Nat
  I : Nat
  bucketSize : Nat
  J : List Nat
  buckets : List (List (Nat × Nat))
deriving DecidableEq

/-- The constructor: `I = 1`, `dirSize = 2`, directory `[0, 1]`, local depths
`[1, 1]`, two empty buckets. -/
def init (size : Nat) : EHState :=
  { dir := [0, 1], dirSize := 2, I := 1, bucketSize := size,
    J := [1, 1], buckets := [[], []] }

/-- `ExtendibleHash::HashKey`: `std::hash<int>()(key) % dirSize` with the
identity hash. -/
def HashKey (s : EHState) (k : Nat) : Nat := k % s.dirSize

/-- `ExtendibleHash::Find`.  The outer `Option` is the out-of-range fault
branch of the `Dir`/`buckets` vector accesses; the inner `Option` is the
found/absent result. -/
def Find (s : EHState) (k : Nat) : Option (Option Nat) :=
  match s.dir.get? (HashKey s k) with
  | none => none
  | some bi =>
    match s.buckets.get? bi with
    | none => none
    | some b => some (mapFind b k)

/-- `ExtendibleHash::Remove`: erase from the bucket the directory points to,
returning whether an entry was erased. -/
def Remove (s : EHState) (k : Nat) : Option (Bool × EHState) :=
  match s.dir.get? (HashKey s k) with
  | none => none
  | some bi =>
    match s.buckets.get? bi with
    | none => none
    | some b =>
      match lset? s.buckets bi (mapErase b k) with
      | none => none
      | some bks => some ((mapFind b k).isSome, { s with buckets := bks })

/-- The directory-doubling loop of `Split`:
`for (idx = 0; idx < dirSize/2; ++idx) Dir.push_back(Dir[idx]);`.
Each read `Dir[idx]` sees the elements pushed by earlier iterations, so the
recursion threads the growing list. -/
def pushLoop : List Nat → Nat → Nat → Option (List Nat)
  | d, _, 0 => some d
  | d, idx, cnt + 1 =>
    match d.get? idx with
    | none => none
    | some x => pushLoop (d ++ [x]) (idx + 1) cnt

/-- The redistribution loop at the end of `Split`: every entry of the saved
copy of the overflowing bucket is reinserted through the (possibly doubled)
directory. -/
def rehashInto (s : EHState) : List (Nat × Nat) → Option EHState
  | [] => some s
  | (k, v) :: rest =>
    match s.dir.get? (HashKey s k) with
    | none => none
    | some bi =>
      match s.buckets.get? bi with
      | none => none
      | some b =>
        match lset? s.buckets bi (mapInsert b k v) with
        | none => none
        | some bks => rehashInto { s with buckets := bks } rest

/-- The body of `Split` up to the redistribution loop: grow the bucket
vector, update the depths, and rewrite the directory.  Both branches append
one empty bucket and then write the local-depth vector at index
`buckets.size() - 1`; `J` is never grown, so that write faults whenever
`|J| ≤ |buckets|`. -/
def splitDir (s : EHState) (bucketIndex jb : Nat) : Option EHState :=
  if jb = s.I then
    match lset? s.J bucketIndex (jb + 1) with
    | none => none
    | some J1 =>
      match lset? J1 ((s.buckets ++ [[]]).length - 1) (jb + 1) with
      | none => none
      | some J2 =>
        match pushLoop s.dir 0 (s.dirSize * 2 / 2) with
        | none => none
        | some dir1 =>
          match lset? dir1 (bucketIndex + s.dirSize * 2 / 2) ((s.buckets ++ [[]]).length - 1) with
          | none => none
          | some dir2 =>
            some { s with dir := dir2, dirSize := s.dirSize * 2, I := s.I + 1,
                          J := J2, buckets := s.buckets ++ [[]] }
  else
    match lset? s.J bucketIndex (jb + 1) with
    | none => none
    | some J1 =>
      match lset? J1 ((s.buckets ++ [[]]).length - 1) (jb + 1) with
      | none => none
      | some J2 =>
        match lset? s.dir (bucketIndex + s.dirSize / 2) ((s.buckets ++ [[]]).length - 1) with
        | none => none
        | some dir2 =>
          some { s with dir := dir2, J := J2, buckets := s.buckets ++ [[]] }

/-- `ExtendibleHash::Split`: the directory/depth update followed by clearing
the overflowing bucket and redistributing its saved contents. -/
def Split (s : EHState) (dirIndex : Nat) : Option EHState :=
  match s.dir.get? dirIndex with
  | none => none
  | some bucketIndex =>
    match s.J.get? bucketIndex with
    | none => none
    | some jb =>
      match splitDir s bucketIndex jb with
      | none => none
      | some s' =>
        match s'.buckets.get? bucketIndex with
        | none => none
        | some b0 =>
          match lset? s'.buckets bucketIndex [] with
          | none => none
          | some bksCleared => rehashInto { s' with buckets := bksCleared } b0

/-- `ExtendibleHash::InsertAux`: the `while (bucket full) { Split; recompute }`
loop, with explicit fuel standing for the loop's (unproved) termination; fuel
exhaustion is folded into the fault branch.  In every state reachable from
`init`, `Split` faults, so at most one iteration ever runs and any fuel ≥ 1
gives the same result. -/
def InsertAux (s : EHState) (k v : Nat) : Nat → Option EHState
  | 0 => none
  | fuel + 1 =>
    match s.dir.get? (HashKey s k) with
    | none => none
    | some bi =>
      match s.buckets.get? bi with
      | none => none
      | some b =>
        if b.length = s.bucketSize then
          match Split s (HashKey s k) with
          | none => none
          | some s' => InsertAux s' k v fuel
        else
          match lset? s.buckets bi (mapInsert b k v) with
          | none => none
          | some bks => some { s with buckets := bks }

/-- `ExtendibleHash::Insert`. -/
def Insert (s : EHState) (k v : Nat) : Option EHState :=
  InsertAux s k v 64

/-- Hash-table states reachable from the constructor by successful `Insert`
and `Remove` calls (`Find` does not change the state). -/
inductive Reach : EHState → Prop
  | init (size : Nat) : Reach (init size)
  | insert {s s' : EHState} (k v : Nat) : Reach s → Insert s k v = some s' → Reach s'
  | remove {s s' : EHState} {b : Bool} (k : Nat) :
      Reach s → Remove s k = some (b, s') → Reach s'

/-- The shape every reachable hash-table state keeps: because `Split` always
faults (the local-depth vector is never grown), the directory never changes
and the two initial buckets are the only ones; bucket keys stay pairwise
distinct. -/
def Inv (s : EHState) : Prop :=
  s.dir = [0, 1] ∧ s.dirSize = 2 ∧ s.J = [1, 1] ∧ s.buckets.length = 2 ∧
    ∀ b ∈ s.buckets, (b.map Prod.fst).Nodup

end ExtendibleHash

/-! ## Buffer pool manager (`src/buffer/buffer_pool_manager.cpp`)

Frames are identified by their index in the `pages_` array; a `Page *` is
embedded as that index.  Page ids are `Int` with `INVALID_PAGE_ID = -1`.
Page byte content is not modelled: no claim observes it, and the
`DiskManager` (not part of this repository's sources) only moves content.
`AllocatePage` is embedded as a monotone counter `nextPid`, matching the
spec's "returns a fresh page id".

The page table field is the `ExtendibleHash<page_id_t, Page *>` instance
constructed with `BUCKET_SIZE`, a constant declared in
`buffer_pool_manager.h`, which is not among the sources.  Modelled from the
spec: the page table is an associative mapping `page_id → frame`
(spec §3 "Page Table"); it is embedded as an association list whose
`Find`/`Remove`/`Insert` have the lookup/erase/insert-if-absent behaviour the
hash table exhibits whenever no split occurs (`Insert` on the hash ends in
`std::map::insert`, which does not overwrite).
-/

namespace BufferPoolManager

/-- The metadata of one `Page` object that the buffer pool reads or writes:
`page_id_`, `pin_count_`, `is_dirty_`. -/
structure Frame where
  pageId : Int
  pin : Nat
  dirty : Bool
deriving DecidableEq

/-- `page_table_` lookup (`ExtendibleHash::Find` at map level). -/
def tlookup : List (Int × Nat) → Int → Option Nat
  | [], _ => none
  | (q, g) :: t, p => if q = p then some g else tlookup t p

/-- `page_table_` removal (`ExtendibleHash::Remove` at map level): erase the
entry with the given key. -/
def tremove : List (Int × Nat) → Int → List (Int × Nat)
  | [], _ => []
  | (q, g) :: t, p => if q = p then t else (q, g) :: tremove t p

/-- `page_table_` insertion (`ExtendibleHash::Insert` at map level), which
bottoms out in `std::map::insert`: a present key is left unchanged. -/
def tinsert (t : List (Int × Nat)) (p : Int) (f : Nat) : List (Int × Nat) :=
  match tlookup t p with
  | some _ => t
  | none => t ++ [(p, f)]

/-- The state of a `BufferPoolManager`: the `pages_` array (a total function
on frame indices; only indices below the pool size are ever reachable), the
page table, the free list, the LRU replacer's list, and the disk manager's
page-id counter. -/
structure BPState where
  frames : Nat → Frame
  table : List (Int × Nat)
  free : List Nat
  lru : List Nat
  nextPid : Nat

/-- The constructor: every frame default-initialized and pushed to the free
list in index order. -/
def init (poolSize : Nat) : BPState :=
  { frames := fun _ => { pageId := -1, pin := 0, dirty := false },
    table := [], free := List.range poolSize, lru := [], nextPid := 0 }

/-- `BufferPoolManager::FetchPage`.  Returns the fetched frame (or `none`)
and the successor state.  In the victim branch, `Victim` has already removed
the frame from the replacer before the `pin_count != 0` refusal. -/
def FetchPage (s : BPState) (pid : Int) : Option Nat × BPState :=
  if pid = -1 then (none, s)
  else
    match tlookup s.table pid with
    | some f =>
      (some f,
        { s with
            frames := Function.update s.frames f
              { s.frames f with pin := (s.frames f).pin + 1 },
            lru := s.lru.erase f })
    | none =>
      match s.free with
      | f :: rest =>
        (some f,
          { s with
              frames := Function.update s.frames f { pageId := pid, pin := 1, dirty := false },
              table := tinsert s.table pid f,
              free := rest })
      | [] =>
        match LRUReplacer.Victim s.lru with
        | (none, _) => (none, s)
        | (some f, lru') =>
          if (s.frames f).pin ≠ 0 then (none, { s with lru := lru' })
          else
            (some f,
              { s with
                  frames := Function.update s.frames f { pageId := pid, pin := 1, dirty := false },
                  table := tinsert (tremove s.table (s.frames f).pageId) pid f,
                  lru := lru' })

/-- `BufferPoolManager::UnpinPage`: fail when the pid is unknown or the pin
count is already zero; otherwise decrement the pin, insert into the replacer
when it reaches zero, and `is_dirty_ = is_dirty` (a plain assignment). -/
def UnpinPage (s : BPState) (pid : Int) (d : Bool) : Bool × BPState :=
  match tlookup s.table pid with
  | none => (false, s)
  | some f =>
    if (s.frames f).pin = 0 then (false, s)
    else
      let pin' := (s.frames f).pin - 1
      (true,
        { s with
            frames := Function.update s.frames f { s.frames f with pin := pin', dirty := d },
            lru := if pin' = 0 then LRUReplacer.Insert s.lru f else s.lru })

/-- `BufferPoolManager::FlushPage`: pure disk I/O; no in-memory state
changes. -/
def FlushPage (s : BPState) (pid : Int) : Bool × BPState :=
  if pid = -1 then (false, s)
  else
    match tlookup s.table pid with
    | some _ => (true, s)
    | none => (false, s)

/-- `BufferPoolManager::DeletePage`: a resident pinned page is refused; a
resident unpinned page is removed from the page table, reset, and pushed to
the free list — the replacer is not touched.  `DeallocatePage` is a disk-side
no-op here. -/
def DeletePage (s : BPState) (pid : Int) : Bool × BPState :=
  match tlookup s.table pid with
  | some f =>
    if (s.frames f).pin > 0 then (false, s)
    else
      (true,
        { s with
            table := tremove s.table (s.frames f).pageId,
            frames := Function.update s.frames f { pageId := -1, pin := 0, dirty := false },
            free := s.free ++ [f] })
  | none => (true, s)

/-- `BufferPoolManager::NewPage`: take a frame from the free list, else any
victim (no pin check in this path), allocate a fresh pid, write back if
dirty, rebind the page table, and pin. -/
def NewPage (s : BPState) : Option (Nat × Int) × BPState :=
  let acquired : Option (Nat × BPState) :=
    match s.free with
    | f :: rest => some (f, { s with free := rest })
    | [] =>
      match LRUReplacer.Victim s.lru with
      | (none, _) => none
      | (some f, lru') => some (f, { s with lru := lru' })
  match acquired with
  | none => (none, s)
  | some (f, s1) =>
    let pid : Int := s1.nextPid
    (some (f, pid),
      { s1 with
          table := tinsert (tremove s1.table (s1.frames f).pageId) pid f,
          frames := Function.update s1.frames f { pageId := pid, pin := 1, dirty := false },
          nextPid := s1.nextPid + 1 })

/-- The buffer pool's public operations, for building call traces. -/
inductive Op
  | fetch (pid : Int)
  | unpin (pid : Int) (d : Bool)
  | flush (pid : Int)
  | delete (pid : Int)
  | new

/-- Apply one operation, discarding its return value. -/
def step (s : BPState) : Op → BPState
  | .fetch pid => (FetchPage s pid).2
  | .unpin pid d => (UnpinPage s pid d).2
  | .flush pid => (FlushPage s pid).2
  | .delete pid => (DeletePage s pid).2
  | .new => (NewPage s).2

/-- Run a trace of operations. -/
def run (s : BPState) (ops : List Op) : BPState :=
  ops.foldl step s

/-- Buffer pool states reachable from a freshly constructed pool. -/
inductive Reach (poolSize : Nat) : BPState → Prop
  | init : Reach poolSize (init poolSize)
  | step {s : BPState} (op : Op) : Reach poolSize s → Reach poolSize (step s op)

/-- The well-formedness every reachable buffer pool state keeps: each page
table entry's frame carries that entry's page id, which is never the
sentinel; table keys are distinct; no table frame is on the free list; free
frames are unpinned with sentinel page id; and the free list has no
duplicates.  (Membership in the LRU list is deliberately absent: `DeletePage`
leaves deleted frames in the replacer, so pinned frames can be in the LRU.) -/
def Inv (s : BPState) : Prop :=
  (∀ pr ∈ s.table, (s.frames pr.2).pageId = pr.1 ∧ pr.1 ≠ (-1 : Int)) ∧
  (s.table.map Prod.fst).Nodup ∧
  (∀ pr ∈ s.table, pr.2 ∉ s.free) ∧
  (∀ f ∈ s.free, (s.frames f).pin = 0 ∧ (s.frames f).pageId = -1) ∧
  s.free.Nodup

end BufferPoolManager

/-! ## Lock manager (`src/concurrency/lock_manager.cpp`)

`RID`s and transaction ids are embedded as `Nat`.  `lock_manager.h` is not
among the sources; the shapes below follow the `.cpp`'s usage and, modelled
from the spec (§3 "Lock Table Entry", "Transaction"), a lock-table entry is a
request list, a granted-exclusive count (value-initialized to `0` by
`lock_table_[rid]`), and the `oldest` transaction id.

Each `Lock*` call is split at its condition-variable wait into a request
phase (everything up to `cv_.wait`) and a grant phase (the wait predicate as
an enabling condition plus everything after the wait); `Unlock` has no wait.
A transition returns `none` when an `assert` fires or the code dereferences
an invalid iterator — executions that abort the program and have no
post-state.
-/

namespace LockManager

inductive LockMode
  | shared
  | exclusive
deriving DecidableEq

inductive TxnState
  | growing
  | shrinking
  | committed
  | aborted
deriving DecidableEq

/-- A queue entry `{txn_id, lock_mode, granted}`. -/
structure Request where
  txnId : Nat
  mode : LockMode
  granted : Bool
deriving DecidableEq

/-- A lock-table entry: request list, granted-exclusive count, oldest txn id. -/
structure LockEntry where
  list : List Request
  exclusiveCnt : Int
  oldest : Nat
deriving DecidableEq

/-- The transaction fields the lock manager touches: state and the two
held-lock sets (std::unordered_set, embedded as duplicate-free lists). -/
structure Txn where
  state : TxnState
  sharedSet : List Nat
  exclSet : List Nat
deriving DecidableEq

/-- Lock manager state: the strict-2PL flag, the lock table, and the live
transactions keyed by id. -/
structure LMState where
  strict : Bool
  table : List (Nat × LockEntry)
  txns : List (Nat × Txn)
deriving DecidableEq

/-- Association-list lookup (for `std::unordered_map::find`/`count`). -/
def alookup {α : Type} : List (Nat × α) → Nat → Option α
  | [], _ => none
  | (q, a) :: t, p => if q = p then some a else alookup t p

/-- Replace the value at a key, or append it — `lock_table_[rid] = e` /
`txns` update. -/
def aset {α : Type} : List (Nat × α) → Nat → α → List (Nat × α)
  | [], p, a => [(p, a)]
  | (q, b) :: t, p, a => if q = p then (p, a) :: t else (q, b) :: aset t p a

/-- `std::unordered_set::insert`. -/
def sinsert (l : List Nat) (x : Nat) : List Nat :=
  if x ∈ l then l else x :: l

def getTxn (s : LMState) (t : Nat) : Option Txn := alookup s.txns t

def setTxn (s : LMState) (t : Nat) (txn : Txn) : LMState :=
  { s with txns := aset s.txns t txn }

def setEntry (s : LMState) (r : Nat) (e : LockEntry) : LMState :=
  { s with table := aset s.table r e }

/-- The outcome of the pre-wait phase of a `Lock*` call: an immediate boolean
return, or a request enqueued and the caller blocked on the condition
variable. -/
inductive ReqResult
  | ret (b : Bool)
  | enqueued
deriving DecidableEq

/-- The pre-wait phase of `LockManager::LockShared`: reject an aborted
transaction; `assert(GROWING)`; `assert(no shared lock on rid yet)`; create
the entry or apply the wound test `exclusive_cnt != 0 && id > oldest`;
otherwise append and overwrite `oldest` with the caller's id. -/
def LockSharedReq (s : LMState) (t r : Nat) : Option (ReqResult × LMState) :=
  match getTxn s t with
  | none => none
  | some txn =>
    if txn.state = TxnState.aborted then
      some (ReqResult.ret false, s)
    else if txn.state ≠ TxnState.growing then
      none
    else if r ∈ txn.sharedSet then
      none
    else
      let req : Request := { txnId := t, mode := LockMode.shared, granted := false }
      match alookup s.table r with
      | none => some (ReqResult.enqueued, setEntry s r { list := [req], exclusiveCnt := 0, oldest := t })
      | some e =>
        if e.exclusiveCnt ≠ 0 ∧ t > e.oldest then
          some (ReqResult.ret false, setTxn s t { txn with state := TxnState.aborted })
        else
          some (ReqResult.enqueued, setEntry s r { e with oldest := t, list := e.list ++ [req] })

/-- The `cv_.wait` predicate of `LockShared`: walking from the head, every
request before the caller's must satisfy
`lock_mode == SHARED && !granted` (the source returns `false` as soon as a
preceding request is non-shared or already granted); hitting the caller's
request, or the end of the list, yields `true`. -/
def sharedCanProceed : List Request → Nat → Bool
  | [], _ => true
  | req :: rest, t =>
    if req.txnId ≠ t then
      (req.mode = LockMode.shared ∧ req.granted = false : Bool) && sharedCanProceed rest t
    else true

/-- Mark the first request of transaction `t` granted (`cur->granted = true`). -/
def markGranted : List Request → Nat → List Request
  | [], _ => []
  | req :: rest, t =>
    if req.txnId = t then { req with granted := true } :: rest
    else req :: markGranted rest t

/-- Whether transaction `t` has a request in the list (the loop's `cur`
pointer is non-null). -/
def hasReq (l : List Request) (t : Nat) : Bool :=
  l.any (fun req => req.txnId = t)

/-- The post-wait phase of `LockShared`, enabled when the wait predicate
holds; dereferencing `cur` requires the caller's request to be present. -/
def LockSharedGrant (s : LMState) (t r : Nat) : Option (Bool × LMState) :=
  match getTxn s t with
  | none => none
  | some txn =>
    let e := (alookup s.table r).getD { list := [], exclusiveCnt := 0, oldest := 0 }
    if sharedCanProceed e.list t ∧ hasReq e.list t then
      let s1 := setEntry s r { e with list := markGranted e.list t }
      some (true, setTxn s1 t { txn with sharedSet := sinsert txn.sharedSet r })
    else none

/-- The pre-wait phase of `LockManager::LockExclusive`; the wound test is
unconditional: `id > oldest` aborts. -/
def LockExclusiveReq (s : LMState) (t r : Nat) : Option (ReqResult × LMState) :=
  match getTxn s t with
  | none => none
  | some txn =>
    if txn.state = TxnState.aborted then
      some (ReqResult.ret false, s)
    else if txn.state ≠ TxnState.growing then
      none
    else if r ∈ txn.exclSet then
      none
    else
      let req : Request := { txnId := t, mode := LockMode.exclusive, granted := false }
      match alookup s.table r with
      | none => some (ReqResult.enqueued, setEntry s r { list := [req], exclusiveCnt := 0, oldest := t })
      | some e =>
        if t > e.oldest then
          some (ReqResult.ret false, setTxn s t { txn with state := TxnState.aborted })
        else
          some (ReqResult.enqueued, setEntry s r { e with oldest := t, list := e.list ++ [req] })

/-- The `cv_.wait` predicate of `LockExclusive`: no request before the
caller's is granted. -/
def exclCanProceed : List Request → Nat → Bool
  | [], _ => true
  | req :: rest, t =>
    if req.txnId ≠ t then (req.granted = false : Bool) && exclCanProceed rest t
    else true

/-- The post-wait phase of `LockExclusive`: grant, increment the entry's
exclusive count, record the held lock. -/
def LockExclusiveGrant (s : LMState) (t r : Nat) : Option (Bool × LMState) :=
  match getTxn s t with
  | none => none
  | some txn =>
    let e := (alookup s.table r).getD { list := [], exclusiveCnt := 0, oldest := 0 }
    if exclCanProceed e.list t ∧ hasReq e.list t then
      let s1 := setEntry s r
        { e with list := markGranted e.list t, exclusiveCnt := e.exclusiveCnt + 1 }
      some (true, setTxn s1 t { txn with exclSet := sinsert txn.exclSet r })
    else none

/-- `LockManager::LockUpgrade`: reject aborted; `assert(GROWING)`;
`assert(shared lock held)`; wait until the caller's request is at the head
and nothing behind it is granted; then flip the head's mode, increment the
exclusive count, and move the rid between the held sets.  On the empty list
the wait predicate is vacuously true and `list.begin()` is dereferenced —
undefined behaviour, embedded as `none`. -/
def LockUpgrade (s : LMState) (t r : Nat) : Option (Bool × LMState) :=
  match getTxn s t with
  | none => none
  | some txn =>
    if txn.state = TxnState.aborted then
      some (false, s)
    else if txn.state ≠ TxnState.growing then
      none
    else if r ∉ txn.sharedSet then
      none
    else
      let e := (alookup s.table r).getD { list := [], exclusiveCnt := 0, oldest := 0 }
      match e.list with
      | [] => none
      | h :: rest =>
        if h.txnId = t ∧ rest.all (fun req => req.granted = false) then
          let s1 := setEntry s r
            { e with list := { h with mode := LockMode.exclusive } :: rest,
                     exclusiveCnt := e.exclusiveCnt + 1 }
          some (true, setTxn s1 t
            { txn with sharedSet := txn.sharedSet.erase r, exclSet := sinsert txn.exclSet r })
        else none

/-- Remove the first request of transaction `t`, returning it and the
remaining list (`none` when the erase loop finds no match). -/
def removeReq : List Request → Nat → Option (Request × List Request)
  | [], _ => none
  | req :: rest, t =>
    if req.txnId = t then some (req, rest)
    else (removeReq rest t).map (fun p => (p.1, req :: p.2))

/-- The `oldest`-update loop of `Unlock`: lower `oldest` to any smaller txn id
among the remaining requests (it is never raised). -/
def refreshOldest (l : List Request) (o : Nat) : Nat :=
  l.foldl (fun m req => if req.txnId < m then req.txnId else m) o

/-- `LockManager::Unlock`: `assert(lock held)`; the strict-2PL check
`state != ABORTED || state != COMMITTED` — a tautology — aborts the caller;
otherwise `GROWING → SHRINKING`, remove the caller's request, adjust the
held sets and the exclusive count, and lower `oldest`. -/
def Unlock (s : LMState) (t r : Nat) : Option (Bool × LMState) :=
  match getTxn s t with
  | none => none
  | some txn =>
    if ¬(r ∈ txn.sharedSet ∨ r ∈ txn.exclSet) then
      none
    else if s.strict ∧ (txn.state ≠ TxnState.aborted ∨ txn.state ≠ TxnState.committed) then
      some (false, setTxn s t { txn with state := TxnState.aborted })
    else
      let txn1 := if txn.state = TxnState.growing then { txn with state := TxnState.shrinking } else txn
      let e := (alookup s.table r).getD { list := [], exclusiveCnt := 0, oldest := 0 }
      match removeReq e.list t with
      | none =>
        let e' := { e with oldest := refreshOldest e.list e.oldest }
        some (true, setTxn (setEntry s r e') t txn1)
      | some (req, rest) =>
        let txn2 :=
          if req.mode = LockMode.shared then { txn1 with sharedSet := txn1.sharedSet.erase r }
          else { txn1 with exclSet := txn1.exclSet.erase r }
        let cnt' := if req.mode = LockMode.shared then e.exclusiveCnt else e.exclusiveCnt - 1
        let e' := { e with list := rest, exclusiveCnt := cnt', oldest := refreshOldest rest e.oldest }
        some (true, setTxn (setEntry s r e') t txn2)

/-- Lock manager events, for building call traces. -/
inductive Event
  | reqS (t r : Nat)
  | grantS (t r : Nat)
  | reqX (t r : Nat)
  | grantX (t r : Nat)
  | upg (t r : Nat)
  | unl (t r : Nat)

def stepEv (s : LMState) : Event → Option LMState
  | .reqS t r => (LockSharedReq s t r).map (·.2)
  | .grantS t r => (LockSharedGrant s t r).map (·.2)
  | .reqX t r => (LockExclusiveReq s t r).map (·.2)
  | .grantX t r => (LockExclusiveGrant s t r).map (·.2)
  | .upg t r => (LockUpgrade s t r).map (·.2)
  | .unl t r => (Unlock s t r).map (·.2)

/-- Run a trace of events; `none` when any transition is disabled or faults. -/
def runEv (s : LMState) : List Event → Option LMState
  | [] => some s
  | e :: rest => (stepEv s e).bind (fun s' => runEv s' rest)

/-- A lock manager with no entries and three fresh growing transactions, the
initial state used by the concrete traces below. -/
def init3 : LMState :=
  { strict := false,
    table := [],
    txns := [(1, { state := TxnState.growing, sharedSet := [], exclSet := [] }),
             (2, { state := TxnState.growing, sharedSet := [], exclSet := [] }),
             (3, { state := TxnState.growing, sharedSet := [], exclSet := [] })] }

/-- A strict-2PL lock manager in which the committed transaction 1 holds a
granted shared lock on rid 0 — the configuration in which the spec says
`Unlock` must succeed. -/
def strictCommitted : LMState :=
  { strict := true,
    table := [(0, { list := [{ txnId := 1, mode := LockMode.shared, granted := true }],
                    exclusiveCnt := 0, oldest := 1 })],
    txns := [(1, { state := TxnState.committed, sharedSet := [0], exclSet := [] })] }

/-- A non-strict lock manager in which the growing transaction 1 holds a
granted shared lock on rid 0, and transaction 2 is fresh. -/
def oneSharedEntry : LMState :=
  { strict := false,
    table := [(0, { list := [{ txnId := 1, mode := LockMode.shared, granted := true }],
                    exclusiveCnt := 0, oldest := 1 })],
    txns := [(1, { state := TxnState.growing, sharedSet := [0], exclSet := [] }),
             (2, { state := TxnState.growing, sharedSet := [], exclSet := [] })] }

/-- The request list left by `Unlock`'s erase loop: unchanged when the caller
has no request, otherwise with the first matching request removed. -/
def removeRest (l : List Request) (t : Nat) : List Request :=
  match removeReq l t with
  | none => l
  | some (_, rest) => rest

end LockManager

/-! ## Theorems

Helper lemmas first, then one theorem per claim (with its counterexample and
witness where the claim's status calls for them).
-/

theorem lru_foldl_some_eq_getLast? (l : List Nat) (init : Option Nat) (h : l ≠ []) :
    l.foldl (fun _ x => some x) init = l.getLast? := by
  induction l generalizing init with
  | nil => cases h rfl
  | cons a t ih =>
    cases t with
    | nil => simp [List.foldl, List.getLast?]
    | cons b u =>
      rw [List.foldl_cons, ih (some a) (by simp)]
      simp [List.getLast?_cons_cons]

/-- C8: `Victim` on a non-empty replacer removes and returns the element at
the back of the ordering — the least-recently-used one, since `Insert` always
(re)places an element at the front — and on an empty replacer returns absence
with the state unchanged. -/
theorem C8_victim_returns_back (l : List Nat) (x : Nat) :
    LRUReplacer.Victim l = (l.getLast?, l.dropLast) ∧
    (LRUReplacer.Insert l x).head? = some x ∧
    LRUReplacer.Victim [] = (none, []) := by
  refine ⟨?_, rfl, rfl⟩
  by_cases h : l = []
  · subst h; rfl
  · unfold LRUReplacer.Victim
    rw [if_neg (by simpa using h), lru_foldl_some_eq_getLast? l none h]

/-! ### Extendible hash lemmas -/

theorem mapFind_eq_none_iff (b : List (Nat × Nat)) (k : Nat) :
    mapFind b k = none ↔ k ∉ b.map Prod.fst := by
  induction b with
  | nil => simp [mapFind]
  | cons e t ih =>
    obtain ⟨k', v'⟩ := e
    by_cases h : k' = k <;> simp [mapFind, h, ih, Ne.symm]

theorem mapFind_append_of_none {b : List (Nat × Nat)} {k : Nat}
    (h : mapFind b k = none) (l : List (Nat × Nat)) :
    mapFind (b ++ l) k = mapFind l k := by
  induction b with
  | nil => simp
  | cons e t ih =>
    obtain ⟨k', v'⟩ := e
    by_cases hk : k' = k
    · simp [mapFind, hk] at h
    · simp only [mapFind, hk, if_false, List.cons_append] at h ⊢
      exact ih h

theorem mapFind_mapInsert_of_none {b : List (Nat × Nat)} {k : Nat}
    (h : mapFind b k = none) (v : Nat) :
    mapFind (mapInsert b k v) k = some v := by
  unfold mapInsert
  rw [h]
  simp only [Option.isSome_none, Bool.false_eq_true, if_false]
  rw [mapFind_append_of_none h]
  simp [mapFind]

theorem mapInsert_nodup {b : List (Nat × Nat)} (k v : Nat)
    (h : (b.map Prod.fst).Nodup) : ((mapInsert b k v).map Prod.fst).Nodup := by
  unfold mapInsert
  cases hf : (mapFind b k).isSome
  · simp only [Bool.false_eq_true, if_false, List.map_append]
    rw [List.nodup_append]
    refine ⟨h, by simp, ?_⟩
    intro a ha hb
    simp only [List.map_cons, List.map_nil, List.mem_singleton] at hb
    have hnone : mapFind b k = none := Option.not_isSome_iff_eq_none.mp (by simp [hf])
    rw [hb] at ha
    exact (mapFind_eq_none_iff b k).mp hnone ha
  · simpa using h

theorem mapErase_sublist (b : List (Nat × Nat)) (k : Nat) :
    (mapErase b k).Sublist b := by
  induction b with
  | nil => simp [mapErase]
  | cons e t ih =>
    obtain ⟨k', v'⟩ := e
    by_cases h : k' = k
    · simp [mapErase, h]
    · simpa [mapErase, h] using ih.cons₂ (k', v')

theorem mapErase_nodup {b : List (Nat × Nat)} (k : Nat)
    (h : (b.map Prod.fst).Nodup) : ((mapErase b k).map Prod.fst).Nodup :=
  List.Nodup.sublist ((mapErase_sublist b k).map Prod.fst) h

theorem mapFind_mapErase_of_nodup {b : List (Nat × Nat)} {k : Nat}
    (h : (b.map Prod.fst).Nodup) : mapFind (mapErase b k) k = none := by
  induction b with
  | nil => rfl
  | cons e t ih =>
    obtain ⟨k', v'⟩ := e
    simp only [List.map_cons, List.nodup_cons] at h
    by_cases hk : k' = k
    · subst hk
      simp only [mapErase, if_pos rfl]
      exact (mapFind_eq_none_iff t k').mpr h.1
    · simp only [mapErase, hk, if_false, mapFind]
      exact ih h.2

theorem lset?_length {α : Type} {l l' : List α} {i : Nat} {a : α}
    (h : lset? l i a = some l') : l'.length = l.length := by
  unfold lset? at h
  by_cases hi : i < l.length
  · rw [if_pos hi] at h
    cases h
    simp
  · rw [if_neg hi] at h
    cases h

theorem lset?_eq_none {α : Type} {l : List α} {i : Nat} {a : α}
    (h : l.length ≤ i) : lset? l i a = none := by
  unfold lset?
  rw [if_neg (by omega)]

theorem lset?_eq_some {α : Type} {l : List α} {i : Nat} (a : α)
    (h : i < l.length) : lset? l i a = some (l.set i a) := by
  unfold lset?
  rw [if_pos h]

namespace ExtendibleHash

theorem splitDir_eq_none (s : EHState) (bi jb : Nat) (hJ : s.J.length = 2)
    (hB : s.buckets.length = 2) : splitDir s bi jb = none := by
  unfold splitDir
  have hlen : (s.buckets ++ [[]]).length - 1 = 2 := by simp [hB]
  rw [hlen]
  by_cases hI : jb = s.I
  · rw [if_pos hI]
    cases hJ1 : lset? s.J bi (jb + 1) with
    | none => rfl
    | some J1 =>
      dsimp only
      rw [lset?_eq_none (by have := lset?_length hJ1; omega)]
  · rw [if_neg hI]
    cases hJ1 : lset? s.J bi (jb + 1) with
    | none => rfl
    | some J1 =>
      dsimp only
      rw [lset?_eq_none (by have := lset?_length hJ1; omega)]

theorem Split_eq_none (s : EHState) (di : Nat) (hJ : s.J.length = 2)
    (hB : s.buckets.length = 2) : Split s di = none := by
  unfold Split
  cases hdi : s.dir.get? di with
  | none => rfl
  | some bi =>
    dsimp only
    cases hjb : s.J.get? bi with
    | none => rfl
    | some jb =>
      dsimp only
      rw [splitDir_eq_none s bi jb hJ hB]

theorem dir_get_self {s : EHState} (h : s.dir = [0, 1]) {i : Nat} (hi : i < 2) :
    s.dir.get? i = some i := by
  rw [h]
  interval_cases i <;> rfl

theorem Insert_success_shape {s s' : EHState} {k v : Nat} (hinv : Inv s)
    (h : Insert s k v = some s') :
    ∃ b, s.buckets.get? (k % 2) = some b ∧ b.length ≠ s.bucketSize ∧
      s' = { s with buckets := s.buckets.set (k % 2) (mapInsert b k v) } := by
  obtain ⟨hdir, hds, hJ, hlen, _⟩ := hinv
  have hk2 : k % 2 < 2 := Nat.mod_lt _ (by omega)
  have hhash : HashKey s k = k % 2 := by simp [HashKey, hds]
  have hgetdir : s.dir.get? (HashKey s k) = some (k % 2) := by
    rw [hhash]
    exact dir_get_self hdir hk2
  obtain ⟨b, hb⟩ : ∃ b, s.buckets.get? (k % 2) = some b := by
    have hk' : k % 2 < s.buckets.length := by omega
    exact ⟨_, List.get?_eq_get hk'⟩
  unfold Insert InsertAux at h
  rw [hgetdir] at h
  dsimp only at h
  rw [hb] at h
  dsimp only at h
  by_cases hfull : b.length = s.bucketSize
  · rw [if_pos hfull, Split_eq_none s _ (by simp [hJ]) hlen] at h
    exact Option.noConfusion h
  · rw [if_neg hfull, lset?_eq_some _ (by omega)] at h
    dsimp only at h
    refine ⟨b, hb, hfull, ?_⟩
    cases h
    rfl

theorem Remove_shape {s s' : EHState} {k : Nat} {br : Bool} (hinv : Inv s)
    (h : Remove s k = some (br, s')) :
    ∃ b, s.buckets.get? (k % 2) = some b ∧ br = (mapFind b k).isSome ∧
      s' = { s with buckets := s.buckets.set (k % 2) (mapErase b k) } := by
  obtain ⟨hdir, hds, hJ, hlen, _⟩ := hinv
  have hk2 : k % 2 < 2 := Nat.mod_lt _ (by omega)
  have hhash : HashKey s k = k % 2 := by simp [HashKey, hds]
  have hgetdir : s.dir.get? (HashKey s k) = some (k % 2) := by
    rw [hhash]
    exact dir_get_self hdir hk2
  obtain ⟨b, hb⟩ : ∃ b, s.buckets.get? (k % 2) = some b := by
    have hk' : k % 2 < s.buckets.length := by omega
    exact ⟨_, List.get?_eq_get hk'⟩
  unfold Remove at h
  rw [hgetdir] at h
  dsimp only at h
  rw [hb] at h
  dsimp only at h
  rw [lset?_eq_some _ (by omega)] at h
  dsimp only at h
  refine ⟨b, hb, ?_, ?_⟩ <;>
  · cases h
    rfl

theorem Find_eq {s : EHState} {k : Nat} {b : List (Nat × Nat)} (hinv : Inv s)
    (hb : s.buckets.get? (k % 2) = some b) : Find s k = some (mapFind b k) := by
  obtain ⟨hdir, hds, _, _, _⟩ := hinv
  have hk2 : k % 2 < 2 := Nat.mod_lt _ (by omega)
  have hhash : HashKey s k = k % 2 := by simp [HashKey, hds]
  unfold Find
  rw [hhash, dir_get_self hdir hk2]
  dsimp only
  rw [hb]

theorem ehInv_of_Reach {s : EHState} (h : Reach s) : Inv s := by
  induction h with
  | init size =>
    refine ⟨rfl, rfl, rfl, rfl, ?_⟩
    intro b hb
    simp [ExtendibleHash.init] at hb
    subst hb
    simp
  | insert k v _ hstep ih =>
    obtain ⟨b, hb, _, hs'⟩ := Insert_success_shape ih hstep
    obtain ⟨hdir, hds, hJ, hlen, hnd⟩ := ih
    subst hs'
    refine ⟨hdir, hds, hJ, by simp [hlen], ?_⟩
    intro b' hb'
    rcases List.mem_or_eq_of_mem_set hb' with hmem | heq
    · exact hnd b' hmem
    · subst heq
      exact mapInsert_nodup k v (hnd b (List.get?_mem hb))
  | remove k _ hstep ih =>
    obtain ⟨b, hb, _, hs'⟩ := Remove_shape ih hstep
    obtain ⟨hdir, hds, hJ, hlen, hnd⟩ := ih
    subst hs'
    refine ⟨hdir, hds, hJ, by simp [hlen], ?_⟩
    intro b' hb'
    rcases List.mem_or_eq_of_mem_set hb' with hmem | heq
    · exact hnd b' hmem
    · subst heq
      exact mapErase_nodup k (hnd b (List.get?_mem hb))

/-- The state after `Insert (init 1) 0 0`: one entry in bucket `0`, directory
untouched; with `bucketSize = 1` the bucket is now full. -/
def fullState1 : EHState :=
  { dir := [0, 1], dirSize := 2, I := 1, bucketSize := 1,
    J := [1, 1], buckets := [[(0, 0)], []] }

/-- C10: the claim that every vector access during `Insert` stays in bounds
fails at the first split: with `bucketSize = 1`, inserting key `0` and then
key `2` (which collides at global depth 1) makes `Insert` reach `Split`,
whose write `J[buckets.size() - 1]`, i.e. `J[2]` with `|J| = 2`, is out of
range, so the whole call lands in the embedding's fault branch. -/
theorem C10_insert_faults :
    (Insert (init 1) 0 0).bind (fun s => Insert s 2 0) = none := by decide

/-- C3: the claimed split outcome never happens.  After `Insert (init 1) 0 0`
the bucket targeted by key `2` is full with `J[b] = I`, but `Split` on it
faults at the out-of-range write `J[2]` (`|J| = 2`) before doubling the
directory or setting the new bucket's local depth, instead of completing
with `J[b] = J[b'] = old J[b] + 1` and `Dir[dirIndex_b + 2^(I-1)] = b'`. -/
theorem C3_split_faults :
    Insert (init 1) 0 0 = some fullState1 ∧ Split fullState1 0 = none := by decide

/-- C4 counterexample: `Insert` does not upsert.  With `bucketSize = 2`,
after `Insert(0, 1)` a second `Insert(0, 2)` leaves the old binding in place
(`std::map::insert` does not overwrite), so `Find(0)` returns `1`, not the
most recently inserted `2` as the claim requires. -/
theorem C4_counterexample :
    ((Insert (init 2) 0 1).bind (fun s => Insert s 0 2)).map (fun s => Find s 0)
      = some (some (some 1)) ∧ (1 : Nat) ≠ 2 := by decide

/-- C4 amended: on every reachable hash state, a successful `Insert(k, v)`
with `k` previously unbound makes `Find(k)` return `v` (when `k` is already
bound the old value is kept — `Insert` is not an upsert), and after a
successful `Remove(k)`, `Find(k)` reports absence. -/
theorem C4_insert_remove_find (s : EHState) (hs : Reach s) (k v : Nat) :
    (∀ s', Find s k = some none → Insert s k v = some s' →
      Find s' k = some (some v)) ∧
    (∀ br s', Remove s k = some (br, s') → Find s' k = some none) := by
  have hinv := ehInv_of_Reach hs
  constructor
  · intro s' hfind hins
    obtain ⟨b, hb, _, hs'⟩ := Insert_success_shape hinv hins
    have hfb : mapFind b k = none := by
      rw [Find_eq hinv hb] at hfind
      exact Option.some.inj hfind
    have hinv' : Inv s' := ehInv_of_Reach (Reach.insert k v hs hins)
    have hb' : s'.buckets.get? (k % 2) = some (mapInsert b k v) := by
      subst hs'
      have hk2 : k % 2 < s.buckets.length := by
        obtain ⟨_, _, _, hlen, _⟩ := hinv
        have : k % 2 < 2 := Nat.mod_lt _ (by omega)
        omega
      simp [List.getElem?_set_eq_of_lt, hk2]
    rw [Find_eq hinv' hb', mapFind_mapInsert_of_none hfb v]
  · intro br s' hrem
    obtain ⟨b, hb, _, hs'⟩ := Remove_shape hinv hrem
    have hinv' : Inv s' := ehInv_of_Reach (Reach.remove k hs hrem)
    have hb' : s'.buckets.get? (k % 2) = some (mapErase b k) := by
      subst hs'
      have hk2 : k % 2 < s.buckets.length := by
        obtain ⟨_, _, _, hlen, _⟩ := hinv
        have : k % 2 < 2 := Nat.mod_lt _ (by omega)
        omega
      simp [List.getElem?_set_eq_of_lt, hk2]
    have hnd : (b.map Prod.fst).Nodup := by
      obtain ⟨_, _, _, _, hnd⟩ := hinv
      exact hnd b (List.get?_mem hb)
    rw [Find_eq hinv' hb', mapFind_mapErase_of_nodup hnd]

/-- C4 witness: the amended theorem applied at the freshly constructed table
with `bucketSize = 2`, key `0`, value `5`. -/
theorem C4_witness :
    Find { dir := [0, 1], dirSize := 2, I := 1, bucketSize := 2,
           J := [1, 1], buckets := [[(0, 5)], []] } 0 = some (some 5) ∧
    Find { dir := [0, 1], dirSize := 2, I := 1, bucketSize := 2,
           J := [1, 1], buckets := [[], []] } 0 = some none :=
  ⟨(C4_insert_remove_find (init 2) (Reach.init 2) 0 5).1 _ (by decide) (by decide),
   (C4_insert_remove_find (init 2) (Reach.init 2) 0 5).2 false _ (by decide)⟩

end ExtendibleHash

/-! ### Buffer pool lemmas -/

namespace BufferPoolManager

theorem tlookup_mem {t : List (Int × Nat)} {p : Int} {f : Nat}
    (h : tlookup t p = some f) : (p, f) ∈ t := by
  induction t with
  | nil => exact Option.noConfusion h
  | cons e rest ih =>
    obtain ⟨q, g⟩ := e
    by_cases hq : q = p
    · subst hq
      simp only [tlookup, if_pos rfl] at h
      cases h
      exact List.mem_cons_self _ _
    · simp only [tlookup, hq, if_false] at h
      exact List.mem_cons_of_mem _ (ih h)

theorem tlookup_eq_none {t : List (Int × Nat)} {p : Int}
    (h : tlookup t p = none) : p ∉ t.map Prod.fst := by
  induction t with
  | nil => simp
  | cons e rest ih =>
    obtain ⟨q, g⟩ := e
    by_cases hq : q = p
    · subst hq
      simp [tlookup] at h
    · simp only [tlookup, hq, if_false] at h
      simp only [List.map_cons, List.mem_cons, not_or]
      exact ⟨fun hh => hq hh.symm, ih h⟩

theorem tremove_sublist (t : List (Int × Nat)) (p : Int) : (tremove t p).Sublist t := by
  induction t with
  | nil => simp [tremove]
  | cons e rest ih =>
    obtain ⟨q, g⟩ := e
    by_cases hq : q = p
    · simp [tremove, hq]
    · simpa [tremove, hq] using ih.cons₂ (q, g)

theorem not_mem_tremove_self {t : List (Int × Nat)} (hnd : (t.map Prod.fst).Nodup)
    (p : Int) (g : Nat) : (p, g) ∉ tremove t p := by
  induction t with
  | nil => simp [tremove]
  | cons e rest ih =>
    obtain ⟨q, v⟩ := e
    simp only [List.map_cons, List.nodup_cons] at hnd
    by_cases hq : q = p
    · subst hq
      simp only [tremove, if_pos rfl]
      intro hmem
      exact hnd.1 (List.mem_map.mpr ⟨(q, g), hmem, rfl⟩)
    · simp only [tremove, hq, if_false, List.mem_cons, not_or]
      refine ⟨fun hh => ?_, ih hnd.2⟩
      cases hh
      exact hq rfl

theorem mem_tinsert {t : List (Int × Nat)} {p : Int} {f : Nat} {pr : Int × Nat}
    (h : pr ∈ tinsert t p f) : pr ∈ t ∨ pr = (p, f) := by
  unfold tinsert at h
  cases hl : tlookup t p with
  | some g =>
    rw [hl] at h
    exact Or.inl h
  | none =>
    rw [hl] at h
    rcases List.mem_append.mp h with h1 | h1
    · exact Or.inl h1
    · exact Or.inr (List.mem_singleton.mp h1)

theorem tinsert_keys_nodup {t : List (Int × Nat)} {p : Int} {f : Nat}
    (hnd : (t.map Prod.fst).Nodup) : ((tinsert t p f).map Prod.fst).Nodup := by
  unfold tinsert
  cases hl : tlookup t p with
  | some g => exact hnd
  | none =>
    simp only [List.map_append]
    rw [List.nodup_append]
    refine ⟨hnd, by simp, ?_⟩
    intro a ha hb
    simp only [List.map_cons, List.map_nil, List.mem_singleton] at hb
    subst hb
    exact tlookup_eq_none hl ha

theorem not_value_tremove {s : BPState}
    (h1 : ∀ pr ∈ s.table, (s.frames pr.2).pageId = pr.1 ∧ pr.1 ≠ (-1 : Int))
    (h2 : (s.table.map Prod.fst).Nodup) (f : Nat) :
    ∀ pr ∈ tremove s.table (s.frames f).pageId, pr.2 ≠ f := by
  intro pr hpr hval
  obtain ⟨a, b⟩ := pr
  dsimp only at hval
  subst hval
  have hmem := (tremove_sublist _ _).subset hpr
  have ha := (h1 _ hmem).1
  dsimp only at ha
  rw [← ha] at hpr
  exact not_mem_tremove_self h2 _ _ hpr

/-- Preservation of `Inv` by a state that only rearranges the LRU list. -/
theorem Inv_lru_only {s : BPState} (hinv : Inv s) (s' : BPState)
    (hframes : s'.frames = s.frames) (htable : s'.table = s.table)
    (hfree : s'.free = s.free) : Inv s' := by
  obtain ⟨h1, h2, h3, h4, h5⟩ := hinv
  refine ⟨?_, ?_, ?_, ?_, ?_⟩ <;> simp only [hframes, htable, hfree] <;>
    first
      | exact h1
      | exact h2
      | exact h3
      | exact h4
      | exact h5

/-- Preservation of `Inv` by touching the metadata of a resident frame
without changing its page id (the pin/dirty updates of `FetchPage` hits and
`UnpinPage`). -/
theorem Inv_touch {s : BPState} (hinv : Inv s) {f : Nat} {pid : Int}
    (ht : tlookup s.table pid = some f) {v : Frame} (s' : BPState)
    (hframes : s'.frames = Function.update s.frames f v)
    (htable : s'.table = s.table) (hfree : s'.free = s.free)
    (hpg : v.pageId = (s.frames f).pageId) : Inv s' := by
  obtain ⟨h1, h2, h3, h4, h5⟩ := hinv
  have hff : f ∉ s.free := h3 _ (tlookup_mem ht)
  refine ⟨?_, ?_, ?_, ?_, ?_⟩ <;> simp only [hframes, htable, hfree]
  · intro pr hpr
    obtain ⟨ha, hb⟩ := h1 pr hpr
    by_cases hval : pr.2 = f
    · refine ⟨?_, hb⟩
      rw [hval, Function.update_same, hpg, ← hval]
      exact ha
    · rw [Function.update_noteq hval]
      exact ⟨ha, hb⟩
  · exact h2
  · exact h3
  · intro g hg
    have hgf : g ≠ f := fun hh => hff (hh ▸ hg)
    rw [Function.update_noteq hgf]
    exact h4 g hg
  · exact h5

/-- Preservation of `Inv` by the frame-rebinding tail shared by the miss
paths of `FetchPage` and by `NewPage`: the chosen frame `f` is unreferenced
by the (possibly already pruned) table `T`, is not on the surviving free list
`F`, and is rebound to the non-sentinel page id `pid` with `pin = 1`. -/
theorem Inv_rebind {s : BPState} {T : List (Int × Nat)} {F : List Nat} {f : Nat} {pid : Int}
    (h1 : ∀ pr ∈ T, (s.frames pr.2).pageId = pr.1 ∧ pr.1 ≠ (-1 : Int))
    (h2 : (T.map Prod.fst).Nodup)
    (h3 : ∀ pr ∈ T, pr.2 ∉ F)
    (h4 : ∀ g ∈ F, (s.frames g).pin = 0 ∧ (s.frames g).pageId = -1)
    (h5 : F.Nodup)
    (hf : ∀ pr ∈ T, pr.2 ≠ f)
    (hfF : f ∉ F)
    (hpid : pid ≠ -1) (s' : BPState)
    (hframes : s'.frames = Function.update s.frames f { pageId := pid, pin := 1, dirty := false })
    (htable : s'.table = tinsert T pid f)
    (hfree : s'.free = F) : Inv s' := by
  refine ⟨?_, ?_, ?_, ?_, ?_⟩ <;> simp only [hframes, htable, hfree]
  · intro pr hpr
    rcases mem_tinsert hpr with hmem | heq
    · obtain ⟨ha, hb⟩ := h1 pr hmem
      rw [Function.update_noteq (hf pr hmem)]
      exact ⟨ha, hb⟩
    · subst heq
      rw [Function.update_same]
      exact ⟨rfl, hpid⟩
  · exact tinsert_keys_nodup h2
  · intro pr hpr
    rcases mem_tinsert hpr with hmem | heq
    · exact h3 pr hmem
    · subst heq
      exact hfF
  · intro g hg
    have hgf : g ≠ f := fun hh => hfF (hh ▸ hg)
    rw [Function.update_noteq hgf]
    exact h4 g hg
  · exact h5

theorem Inv_init (n : Nat) : Inv (init n) := by
  refine ⟨?_, ?_, ?_, ?_, ?_⟩ <;> simp [init, List.nodup_range]

theorem Inv_fetch {s : BPState} (hinv : Inv s) (pid : Int) :
    Inv (FetchPage s pid).2 := by
  unfold FetchPage
  by_cases hpid : pid = -1
  · rw [if_pos hpid]
    exact hinv
  · rw [if_neg hpid]
    cases ht : tlookup s.table pid with
    | some f =>
      dsimp only
      exact Inv_touch hinv ht _ rfl rfl rfl rfl
    | none =>
      obtain ⟨h1, h2, h3, h4, h5⟩ := hinv
      cases hfr : s.free with
      | cons f rest =>
        dsimp only
        refine Inv_rebind h1 h2 ?_ ?_ ?_ ?_ ?_ hpid _ rfl rfl rfl
        · intro pr hpr
          have := h3 pr hpr
          rw [hfr] at this
          exact fun hc => this (List.mem_cons_of_mem _ hc)
        · intro g hg
          exact h4 g (hfr ▸ List.mem_cons_of_mem _ hg)
        · have := h5
          rw [hfr] at this
          exact this.of_cons
        · intro pr hpr
          have := h3 pr hpr
          rw [hfr] at this
          exact fun hc => this (hc ▸ List.mem_cons_self _ _)
        · have := h5
          rw [hfr] at this
          exact (List.nodup_cons.mp this).1
      | nil =>
        dsimp only
        cases hv : LRUReplacer.Victim s.lru with
        | mk vopt lru' =>
          cases vopt with
          | none =>
            dsimp only
            exact ⟨h1, h2, h3, h4, h5⟩
          | some f =>
            dsimp only
            by_cases hpin : (s.frames f).pin ≠ 0
            · rw [if_pos hpin]
              exact Inv_lru_only ⟨h1, h2, h3, h4, h5⟩ _ rfl rfl hfr.symm
            · rw [if_neg hpin]
              refine Inv_rebind ?_ ?_ ?_ ?_ ?_ (not_value_tremove h1 h2 f) (by simp)
                hpid _ rfl rfl rfl
              · intro pr hpr
                exact h1 pr ((tremove_sublist _ _).subset hpr)
              · exact List.Nodup.sublist ((tremove_sublist _ _).map Prod.fst) h2
              · intro pr hpr
                simp
              · intro g hg
                simp at hg
              · simp

theorem Inv_unpin {s : BPState} (hinv : Inv s) (pid : Int) (d : Bool) :
    Inv (UnpinPage s pid d).2 := by
  unfold UnpinPage
  cases ht : tlookup s.table pid with
  | none => exact hinv
  | some f =>
    dsimp only
    by_cases hp : (s.frames f).pin = 0
    · rw [if_pos hp]
      exact hinv
    · rw [if_neg hp]
      exact Inv_touch hinv ht _ rfl rfl rfl rfl

theorem FlushPage_state (s : BPState) (pid : Int) : (FlushPage s pid).2 = s := by
  unfold FlushPage
  by_cases hpid : pid = -1
  · rw [if_pos hpid]
  · rw [if_neg hpid]
    cases tlookup s.table pid <;> rfl

theorem Inv_delete {s : BPState} (hinv : Inv s) (pid : Int) :
    Inv (DeletePage s pid).2 := by
  unfold DeletePage
  cases ht : tlookup s.table pid with
  | none => exact hinv
  | some f =>
    dsimp only
    by_cases hp : (s.frames f).pin > 0
    · rw [if_pos hp]
      exact hinv
    · rw [if_neg hp]
      obtain ⟨h1, h2, h3, h4, h5⟩ := hinv
      have hff : f ∉ s.free := h3 _ (tlookup_mem ht)
      have hT := not_value_tremove h1 h2 f
      show Inv { s with table := tremove s.table (s.frames f).pageId,
                        frames := Function.update s.frames f
                          { pageId := -1, pin := 0, dirty := false },
                        free := s.free ++ [f] }
      refine ⟨?_, ?_, ?_, ?_, ?_⟩ <;> dsimp only
      · intro pr hpr
        obtain ⟨ha, hb⟩ := h1 pr ((tremove_sublist _ _).subset hpr)
        rw [Function.update_noteq (hT pr hpr)]
        exact ⟨ha, hb⟩
      · exact List.Nodup.sublist ((tremove_sublist _ _).map Prod.fst) h2
      · intro pr hpr
        simp only [List.mem_append, List.mem_singleton, not_or]
        exact ⟨h3 pr ((tremove_sublist _ _).subset hpr), hT pr hpr⟩
      · intro g hg
        rcases List.mem_append.mp hg with hg1 | hg1
        · have hgf : g ≠ f := fun hh => hff (hh ▸ hg1)
          rw [Function.update_noteq hgf]
          exact h4 g hg1
        · have hgf : g = f := List.mem_singleton.mp hg1
          subst hgf
          rw [Function.update_same]
          exact ⟨rfl, rfl⟩
      · rw [List.nodup_append]
        refine ⟨h5, by simp, ?_⟩
        intro a ha hb
        simp only [List.mem_singleton] at hb
        subst hb
        exact hff ha

theorem Inv_new {s : BPState} (hinv : Inv s) : Inv (NewPage s).2 := by
  unfold NewPage
  obtain ⟨h1, h2, h3, h4, h5⟩ := hinv
  have hpid : ((s.nextPid : Int)) ≠ -1 := by omega
  cases hfr : s.free with
  | cons f rest =>
    dsimp only
    have hfmem : f ∈ s.free := hfr ▸ List.mem_cons_self _ _
    refine Inv_rebind (T := tremove s.table (s.frames f).pageId) ?_ ?_ ?_ ?_ ?_ ?_ ?_
      hpid _ rfl rfl rfl
    · intro pr hpr
      exact h1 pr ((tremove_sublist _ _).subset hpr)
    · exact List.Nodup.sublist ((tremove_sublist _ _).map Prod.fst) h2
    · intro pr hpr
      have := h3 pr ((tremove_sublist _ _).subset hpr)
      rw [hfr] at this
      exact fun hc => this (List.mem_cons_of_mem _ hc)
    · intro g hg
      exact h4 g (hfr ▸ List.mem_cons_of_mem _ hg)
    · have := h5
      rw [hfr] at this
      exact this.of_cons
    · intro pr hpr
      have := h3 pr ((tremove_sublist _ _).subset hpr)
      rw [hfr] at this
      exact fun hc => this (hc ▸ List.mem_cons_self _ _)
    · have := h5
      rw [hfr] at this
      exact (List.nodup_cons.mp this).1
  | nil =>
    dsimp only
    cases hv : LRUReplacer.Victim s.lru with
    | mk vopt lru' =>
      cases vopt with
      | none =>
        dsimp only
        exact ⟨h1, h2, h3, h4, h5⟩
      | some f =>
        dsimp only
        refine Inv_rebind ?_ ?_ ?_ ?_ ?_ (not_value_tremove h1 h2 f) (by simp)
          hpid _ rfl rfl rfl
        · intro pr hpr
          exact h1 pr ((tremove_sublist _ _).subset hpr)
        · exact List.Nodup.sublist ((tremove_sublist _ _).map Prod.fst) h2
        · intro pr hpr
          simp
        · intro g hg
          simp at hg
        · simp

theorem bpInv_of_Reach {n : Nat} {s : BPState} (h : Reach n s) : Inv s := by
  induction h with
  | init => exact Inv_init n
  | step op _ ih =>
    cases op with
    | fetch pid => exact Inv_fetch ih pid
    | unpin pid d => exact Inv_unpin ih pid d
    | flush pid =>
      show Inv (FlushPage _ pid).2
      rw [FlushPage_state]
      exact ih
    | delete pid => exact Inv_delete ih pid
    | new => exact Inv_new ih

/-- C1 counterexample: on a pool of size 1 the trace `NewPage`;
`UnpinPage(p, false)`; `DeletePage(p)`; `NewPage` leaves frame 0 with
`pin_count = 1` while frame 0 is still in the LRU replacer — `DeletePage`
pushes the frame to the free list without erasing it from the replacer, and
the second `NewPage` re-pins it from the free list.  This refutes both
"pin_count > 0 ⇒ not in the replacer" and the at-most-one-of-three
separation (already the mid-trace state after the unpin has the frame in the
page table and the LRU at once). -/
theorem C1_counterexample :
    ((run (init 1) [Op.new, Op.unpin 0 false, Op.delete 0, Op.new]).frames 0).pin = 1 ∧
    0 ∈ (run (init 1) [Op.new, Op.unpin 0 false, Op.delete 0, Op.new]).lru ∧
    (tlookup (run (init 1) [Op.new, Op.unpin 0 false]).table 0 = some 0 ∧
      0 ∈ (run (init 1) [Op.new, Op.unpin 0 false]).lru) := by
  decide

/-- C1 amended: the separations that do hold in every reachable buffer pool
state: the free list is disjoint from the page table's image, and a frame
with `pin_count > 0` is never on the free list.  (A resident unpinned frame
is in the page table and the LRU simultaneously by design, and after
`DeletePage` a frame can be pinned while still in the LRU, so the claim's
replacer-related parts fail.) -/
theorem C1_free_table_separation {n : Nat} {s : BPState} (hs : Reach n s) :
    (∀ pr ∈ s.table, pr.2 ∉ s.free) ∧
    (∀ f, 0 < (s.frames f).pin → f ∉ s.free) := by
  obtain ⟨_, _, h3, h4, _⟩ := bpInv_of_Reach hs
  refine ⟨h3, ?_⟩
  intro f hf hmem
  have := (h4 f hmem).1
  omega

/-- C1 witness: the amended separation applied to the reachable state after
one `NewPage` on a pool of size 1, whose only frame is pinned. -/
theorem C1_witness : 0 ∉ (run (init 1) [Op.new]).free :=
  (C1_free_table_separation (Reach.step Op.new Reach.init)).2 0 (by decide)

/-- C6 counterexample: on a pool of size 1, `NewPage`; `UnpinPage(p, true)`
(frame dirty); `FetchPage(p)`; `UnpinPage(p, false)` ends with the frame's
dirty flag `false`: the unpin assigns the supplied flag instead of OR-ing it
in, clearing a true dirty bit. -/
theorem C6_counterexample :
    ((run (init 1) [Op.new, Op.unpin 0 true, Op.fetch 0]).frames 0).dirty = true ∧
    ((run (init 1) [Op.new, Op.unpin 0 true, Op.fetch 0, Op.unpin 0 false]).frames 0).dirty
      = false := by
  decide

/-- C6 amended: `UnpinPage(pid, d)` on a resident page with `pin_count > 0`
succeeds and sets the frame's dirty flag to exactly the supplied `d` (an
unconditional assignment); in particular `UnpinPage(pid, false)` on a dirty
frame clears the flag. -/
theorem C6_unpin_assigns_dirty (s : BPState) (pid : Int) (d : Bool) (f : Nat)
    (hf : tlookup s.table pid = some f) (hpin : (s.frames f).pin ≠ 0) :
    (UnpinPage s pid d).1 = true ∧ (((UnpinPage s pid d).2).frames f).dirty = d := by
  unfold UnpinPage
  rw [hf]
  dsimp only
  rw [if_neg hpin]
  refine ⟨rfl, ?_⟩
  dsimp only
  rw [Function.update_same]

/-- C6 witness: the amended statement applied to the pool-of-one state whose
only page is pinned, unpinning with `d = true`. -/
theorem C6_witness :
    (UnpinPage (run (init 1) [Op.new]) 0 true).1 = true ∧
    (((UnpinPage (run (init 1) [Op.new]) 0 true).2).frames 0).dirty = true :=
  C6_unpin_assigns_dirty (run (init 1) [Op.new]) 0 true 0 (by decide) (by decide)

/-- C9: `FetchPage(pid)` returns absence exactly when `pid` is the sentinel,
or the page is not resident and no frame can be acquired — the free list is
empty and the replacer yields no victim, or only a victim with nonzero pin
count.  In particular, on a pool of size 1 holding one pinned page, fetching
a second distinct pid returns absence. -/
theorem C9_fetch_absent_iff :
    (∀ (s : BPState) (pid : Int),
      (FetchPage s pid).1 = none ↔
        pid = -1 ∨ (tlookup s.table pid = none ∧ s.free = [] ∧
          ((LRUReplacer.Victim s.lru).1 = none ∨
            ∃ f, (LRUReplacer.Victim s.lru).1 = some f ∧ (s.frames f).pin ≠ 0))) ∧
    (FetchPage (NewPage (init 1)).2 1).1 = none := by
  constructor
  · intro s pid
    unfold FetchPage
    by_cases hpid : pid = -1
    · simp [hpid]
    · rw [if_neg hpid]
      cases ht : tlookup s.table pid with
      | some f => simp [hpid]
      | none =>
        cases hfr : s.free with
        | cons f rest => simp [hpid, ht]
        | nil =>
          cases hv : LRUReplacer.Victim s.lru with
          | mk vopt lru' =>
            cases vopt with
            | none => simp [hpid, ht, hv]
            | some f =>
              dsimp only
              by_cases hpin : (s.frames f).pin ≠ 0
              · rw [if_pos hpin]
                simp [hpid, ht, hv, hpin]
              · rw [if_neg hpin]
                simp [hpid, ht, hv, hpin]
  · decide

end BufferPoolManager

/-! ### Lock manager lemmas and claims -/

namespace LockManager

theorem alookup_aset_self {α : Type} (l : List (Nat × α)) (p : Nat) (a : α) :
    alookup (aset l p a) p = some a := by
  induction l with
  | nil => simp [aset, alookup]
  | cons e t ih =>
    obtain ⟨q, b⟩ := e
    by_cases h : q = p
    · subst h
      simp [aset, alookup]
    · simp [aset, alookup, h, ih]

/-- C2: under strict 2PL the source's check
`state != ABORTED || state != COMMITTED` is a tautology, so `Unlock` on a
COMMITTED transaction — which the claim says must succeed — returns `false`
and sets the transaction's state to ABORTED, leaving the lock table entry
unchanged.  Evaluated at the failing input `strictCommitted`. -/
theorem C2_strict_unlock_rejects_committed :
    (Unlock strictCommitted 1 0).map (fun p => p.1) = some false ∧
    (Unlock strictCommitted 1 0).map (fun p => (getTxn p.2 1).map Txn.state)
      = some (some TxnState.aborted) ∧
    (Unlock strictCommitted 1 0).map (fun p => p.2.table) = some strictCommitted.table := by
  decide

/-- C5 counterexample: two `LockShared` calls by transactions 1 and then 2 on
the same record leave the entry with requests `[1, 2]` but `oldest = 2`,
because the append path overwrites `oldest` with the caller's id
unconditionally; the minimum id among the requests is `1 ≠ 2`. -/
theorem C5_counterexample :
    (runEv init3 [Event.reqS 1 0, Event.reqS 2 0]).map
        (fun s => (alookup s.table 0).map (fun e => (e.oldest, e.list.map Request.txnId)))
      = some (some (2, [1, 2])) ∧ (1 : Nat) < 2 := by
  decide

/-- C5 amended: what the code actually maintains.  Whenever `LockShared` or
`LockExclusive` enqueues a request, the entry's `oldest` becomes the
requesting transaction's id (not the minimum); a successful `Unlock` sets
`oldest` to the fold of `min` over the remaining requests' ids, seeded with
the previous `oldest` — it lowers `oldest` but never raises it. -/
theorem C5_oldest_update_rules (s : LMState) (t r : Nat) :
    (∀ res s', LockSharedReq s t r = some (res, s') → res = ReqResult.enqueued →
      (alookup s'.table r).map LockEntry.oldest = some t) ∧
    (∀ res s', LockExclusiveReq s t r = some (res, s') → res = ReqResult.enqueued →
      (alookup s'.table r).map LockEntry.oldest = some t) ∧
    (∀ e b s', alookup s.table r = some e → Unlock s t r = some (b, s') → b = true →
      (alookup s'.table r).map LockEntry.oldest
        = some (refreshOldest (removeRest e.list t) e.oldest)) ∧
    (∀ (l : List Request) (o : Nat),
      refreshOldest l o = (l.map Request.txnId).foldl min o) := by
  refine ⟨?_, ?_, ?_, ?_⟩
  · intro res s' h hres
    subst hres
    unfold LockSharedReq at h
    cases htxn : getTxn s t with
    | none => rw [htxn] at h; exact Option.noConfusion h
    | some txn =>
      rw [htxn] at h
      dsimp only at h
      by_cases h1 : txn.state = TxnState.aborted
      · rw [if_pos h1] at h
        simp at h
      · rw [if_neg h1] at h
        by_cases h2 : txn.state ≠ TxnState.growing
        · rw [if_pos h2] at h
          exact Option.noConfusion h
        · rw [if_neg h2] at h
          by_cases h3 : r ∈ txn.sharedSet
          · rw [if_pos h3] at h
            exact Option.noConfusion h
          · rw [if_neg h3] at h
            cases he : alookup s.table r with
            | none =>
              rw [he] at h
              dsimp only at h
              cases h
              simp [setEntry, alookup_aset_self]
            | some e =>
              rw [he] at h
              dsimp only at h
              by_cases hw : e.exclusiveCnt ≠ 0 ∧ t > e.oldest
              · rw [if_pos hw] at h
                simp at h
              · rw [if_neg hw] at h
                cases h
                simp [setEntry, alookup_aset_self]
  · intro res s' h hres
    subst hres
    unfold LockExclusiveReq at h
    cases htxn : getTxn s t with
    | none => rw [htxn] at h; exact Option.noConfusion h
    | some txn =>
      rw [htxn] at h
      dsimp only at h
      by_cases h1 : txn.state = TxnState.aborted
      · rw [if_pos h1] at h
        simp at h
      · rw [if_neg h1] at h
        by_cases h2 : txn.state ≠ TxnState.growing
        · rw [if_pos h2] at h
          exact Option.noConfusion h
        · rw [if_neg h2] at h
          by_cases h3 : r ∈ txn.exclSet
          · rw [if_pos h3] at h
            exact Option.noConfusion h
          · rw [if_neg h3] at h
            cases he : alookup s.table r with
            | none =>
              rw [he] at h
              dsimp only at h
              cases h
              simp [setEntry, alookup_aset_self]
            | some e =>
              rw [he] at h
              dsimp only at h
              by_cases hw : t > e.oldest
              · rw [if_pos hw] at h
                simp at h
              · rw [if_neg hw] at h
                cases h
                simp [setEntry, alookup_aset_self]
  · intro e b s' he h hb
    subst hb
    unfold Unlock at h
    cases htxn : getTxn s t with
    | none => rw [htxn] at h; exact Option.noConfusion h
    | some txn =>
      rw [htxn] at h
      dsimp only at h
      by_cases h1 : ¬(r ∈ txn.sharedSet ∨ r ∈ txn.exclSet)
      · rw [if_pos h1] at h
        exact Option.noConfusion h
      · rw [if_neg h1] at h
        by_cases h2 : s.strict ∧ (txn.state ≠ TxnState.aborted ∨ txn.state ≠ TxnState.committed)
        · rw [if_pos h2] at h
          simp at h
        · rw [if_neg h2] at h
          rw [he] at h
          simp only [Option.getD_some] at h
          unfold removeRest
          cases hrem : removeReq e.list t with
          | none =>
            rw [hrem] at h
            dsimp only at h
            cases h
            simp [setTxn, setEntry, alookup_aset_self]
          | some p =>
            obtain ⟨req, rest⟩ := p
            rw [hrem] at h
            dsimp only at h
            cases h
            simp [setTxn, setEntry, alookup_aset_self]
  · intro l o
    induction l generalizing o with
    | nil => rfl
    | cons req rest ih =>
      have hmin : (if req.txnId < o then req.txnId else o) = min o req.txnId := by
        split <;> omega
      simp only [refreshOldest] at ih ⊢
      simp only [List.foldl_cons, List.map_cons]
      rw [hmin]
      exact ih (min o req.txnId)

/-- C5 witness: the amended update rules applied at concrete inputs — a first
`LockShared` by transaction 1 on an empty table, and the `Unlock` releasing
it again. -/
theorem C5_witness :
    (alookup (setEntry init3 0
        { list := [{ txnId := 1, mode := LockMode.shared, granted := false }],
          exclusiveCnt := 0, oldest := 1 }).table 0).map LockEntry.oldest = some 1 ∧
    (alookup (setTxn (setEntry oneSharedEntry 0
        { list := [], exclusiveCnt := 0, oldest := 1 }) 1
        { state := TxnState.shrinking, sharedSet := [], exclSet := [] }).table 0).map
          LockEntry.oldest
      = some (refreshOldest (removeRest
          [{ txnId := 1, mode := LockMode.shared, granted := true }] 1) 1) :=
  ⟨(C5_oldest_update_rules init3 1 0).1 ReqResult.enqueued _ (by decide) rfl,
   (C5_oldest_update_rules oneSharedEntry 1 0).2.2.1
     { list := [{ txnId := 1, mode := LockMode.shared, granted := true }],
       exclusiveCnt := 0, oldest := 1 } true _ (by decide) (by decide) rfl⟩

/-- C7 counterexample: after `T2` holds a granted shared lock and the older
`T1` has enqueued an exclusive request (so an exclusive waiter exists and the
entry's `oldest` is 1), `LockShared` by `T3` (id 3 > 1) does not abort `T3`:
because `exclusive_cnt` counts only granted exclusives, the request is
appended and `T3` stays GROWING, contradicting the claim's
"holder or waiter" condition. -/
theorem C7_counterexample :
    ((runEv init3 [Event.reqS 2 0, Event.grantS 2 0, Event.reqX 1 0]).bind (fun s =>
        (alookup s.table 0).map LockEntry.oldest) = some 1) ∧
    ((runEv init3 [Event.reqS 2 0, Event.grantS 2 0, Event.reqX 1 0]).bind (fun s =>
        (alookup s.table 0).map LockEntry.exclusiveCnt) = some 0) ∧
    ((runEv init3 [Event.reqS 2 0, Event.grantS 2 0, Event.reqX 1 0]).bind (fun s =>
        (alookup s.table 0).map (fun e => e.list.map (fun q => (q.txnId, q.mode, q.granted))))
      = some [(2, LockMode.shared, true), (1, LockMode.exclusive, false)]) ∧
    ((runEv init3 [Event.reqS 2 0, Event.grantS 2 0, Event.reqX 1 0]).bind (fun s =>
        (LockSharedReq s 3 0).map (fun p => p.1)) = some ReqResult.enqueued) ∧
    ((runEv init3 [Event.reqS 2 0, Event.grantS 2 0, Event.reqX 1 0]).bind (fun s =>
        (LockSharedReq s 3 0).bind (fun p => (getTxn p.2 3).map Txn.state))
      = some TxnState.growing) ∧
    (3 : Nat) > 1 := by
  decide

/-- C7 amended: `LockShared` on an existing entry aborts the caller exactly
when the entry's count of granted exclusive requests is nonzero and the
caller's id exceeds the entry's `oldest` (waiting, ungranted exclusive
requests do not trigger the wound); otherwise the shared request is appended
and `oldest` is overwritten with the caller's id. -/
theorem C7_shared_wound_iff (s : LMState) (t r : Nat) (txn : Txn) (e : LockEntry)
    (htxn : getTxn s t = some txn) (hst : txn.state = TxnState.growing)
    (hsh : r ∉ txn.sharedSet) (he : alookup s.table r = some e) :
    (LockSharedReq s t r
        = some (ReqResult.ret false, setTxn s t { txn with state := TxnState.aborted })
      ↔ e.exclusiveCnt ≠ 0 ∧ t > e.oldest) ∧
    (¬(e.exclusiveCnt ≠ 0 ∧ t > e.oldest) →
      LockSharedReq s t r = some (ReqResult.enqueued, setEntry s r
        { e with oldest := t,
                 list := e.list ++ [{ txnId := t, mode := LockMode.shared, granted := false }] })) := by
  unfold LockSharedReq
  rw [htxn]
  dsimp only
  rw [if_neg (by simp [hst]), if_neg (by simp [hst]), if_neg hsh, he]
  dsimp only
  by_cases hw : e.exclusiveCnt ≠ 0 ∧ t > e.oldest
  · rw [if_pos hw]
    exact ⟨⟨fun _ => hw, fun _ => rfl⟩, fun hc => absurd hw hc⟩
  · rw [if_neg hw]
    refine ⟨⟨fun hc => ?_, fun hc => absurd hc hw⟩, fun _ => rfl⟩
    simp at hc

/-- C7 witness: the amended characterization applied at `oneSharedEntry`:
transaction 2 requesting a shared lock on rid 0 is enqueued (no granted
exclusive exists). -/
theorem C7_witness :
    LockSharedReq oneSharedEntry 2 0 = some (ReqResult.enqueued, setEntry oneSharedEntry 0
      { list := [{ txnId := 1, mode := LockMode.shared, granted := true },
                 { txnId := 2, mode := LockMode.shared, granted := false }],
        exclusiveCnt := 0, oldest := 2 }) :=
  (C7_shared_wound_iff oneSharedEntry 2 0
      { state := TxnState.growing, sharedSet := [], exclSet := [] }
      { list := [{ txnId := 1, mode := LockMode.shared, granted := true }],
        exclusiveCnt := 0, oldest := 1 }
      rfl rfl (by decide) rfl).2 (by decide)

end LockManager

end Cmudb
